import Mathlib

/-!
Verification of the incremental-backup script `backupdataupdated.py`.

The script's core logic is embedded shallowly:
* `should_skip` — the Skip Policy predicate (pure on a path plus file metadata);
* `find_destination` — the Destination Resolver probing prioritized candidates;
* `waitLoop` — the Availability Waiter poll loop (time modeled as a `Nat` clock,
  `time.sleep` advances the clock by the poll interval);
* `copyRun` — the fallback incremental copy engine over an abstract destination
  mtime map (`shutil.copy2` preserves the source modification time);
* `mainResult` / `topLevel` — the orchestrator's exit-code logic.

Filesystem effects are modeled by explicit oracles: an availability predicate
on paths, file metadata records, and a destination map from mirrored paths to
modification times.  Exceptions caught in the script (`os.path.getsize`
failures, per-file copy errors) are modeled where the claims need them
(`FileMeta.size = none` models a metadata-read failure).
-/

/-! ### String primitives

Python's `needle in haystack`, `str.lower()`, `str.endswith()` and
`os.path.join` (Windows flavor, for relative second arguments) are modeled on
character lists. -/

/-- Does `hay` start with `needle`?  (Models the anchor step of Python's
substring containment test.) -/
def leadMatch : List Char → List Char → Bool
  | _, [] => true
  | [], _ :: _ => false
  | a :: as, b :: bs => a == b && leadMatch as bs

/-- Does `hay` contain `needle` as a contiguous run?  Models Python's
`needle in hay`. -/
def hasSub : List Char → List Char → Bool
  | [], needle => needle.isEmpty
  | hay@(_ :: t), needle => leadMatch hay needle || hasSub t needle

/-- Python `needle in hay` on strings. -/
def strHasSub (hay needle : String) : Bool :=
  hasSub hay.data needle.data

/-- Python `str.lower()` (ASCII-faithful for the constants used here). -/
def strLower (s : String) : String :=
  ⟨s.data.map Char.toLower⟩

/-- Python `str.endswith(suffix)`. -/
def strEndsWith (s suffix : String) : Bool :=
  leadMatch s.data.reverse suffix.data.reverse

/-- Models `os.path.join` on Windows for a relative second component: inserts a
backslash unless the first component already ends with one. -/
def joinPath (p q : String) : String :=
  if strEndsWith p "\\" then p ++ q else p ++ "\\" ++ q

/-! ### Configuration constants (the script's CONFIG block) -/

/-- Script constant `MAPPED_ROOT = r"Z:\\"` — the raw string keeps both backslashes. -/
def MAPPED_ROOT : String := "Z:\\\\"

/-- Script constant `UNC_ROOT = r"\\server\Unity Exploration\IT Department"`. -/
def UNC_ROOT : String := "\\\\server\\Unity Exploration\\IT Department"

def BACKUP_FOLDER_NAME : String := "BACKUP"

def USER_FOLDERS : List String := ["Desktop", "Documents"]

def RETRY_INTERVAL_SECONDS : Nat := 60

def DRIVE_RETRY_MINUTES : Nat := 15

def MAX_FILE_SIZE_MB : Nat := 50000

def OUTLOOK_FOLDERS : List String := ["Documents\\Outlook", "Documents\\OutlookFiles"]

def PST_EXTENSION : String := ".pst"

/-- The denylist of path substrings inside `should_skip`. -/
def SKIP_SUBSTRINGS : List String := ["appdata", "program files", "windows", "microsoft", "temp"]

/-! ### Skip Policy (`should_skip`) -/

/-- Filesystem metadata for one path, as `should_skip` observes it:
whether `os.path.isfile` holds, and the result of `os.path.getsize`
(`none` models the call raising, which the script catches). -/
structure FileMeta where
  isFile : Bool
  size : Option Nat
deriving DecidableEq, Repr

/-- The final clause of `should_skip`: if the path lies under a configured
Outlook folder and ends with the PST extension it returns `False`; otherwise
control falls through to the trailing `return False`.  (Both branches yield
`false`; the structure mirrors the source.) -/
def outlookClause (path : String) : Bool :=
  if OUTLOOK_FOLDERS.any (fun f => strHasSub (strLower path) (strLower f)) then
    if strEndsWith path PST_EXTENSION then false else false
  else false

/-- Embedding of `should_skip(path)` from the script.  The size comparison in the source is
`os.path.getsize(path) / (50000 * 50000) > MAX_FILE_SIZE_MB` in floating
point; for sizes in the exact-integer range of doubles this is equivalent to
the exact comparison `size > MAX_FILE_SIZE_MB * (50000 * 50000)`, which is how
it is rendered here. -/
def should_skip (path : String) (meta : FileMeta) : Bool :=
  let lower := strLower path
  if SKIP_SUBSTRINGS.any (fun s => strHasSub lower s) then true
  else if strEndsWith path ".lnk" then true
  else if meta.isFile then
    match meta.size with
    | none => true
    | some sz =>
      if sz > MAX_FILE_SIZE_MB * (50000 * 50000) && !(strEndsWith path PST_EXTENSION) then
        true
      else outlookClause path
  else outlookClause path

/-- Variant of `should_skip` with the dead Outlook clause removed (for the
refinement-equivalence claim about that clause). -/
def should_skip_noOutlook (path : String) (meta : FileMeta) : Bool :=
  let lower := strLower path
  if SKIP_SUBSTRINGS.any (fun s => strHasSub lower s) then true
  else if strEndsWith path ".lnk" then true
  else if meta.isFile then
    match meta.size with
    | none => true
    | some sz =>
      if sz > MAX_FILE_SIZE_MB * (50000 * 50000) && !(strEndsWith path PST_EXTENSION) then
        true
      else false
  else false

example : should_skip "c:\\users\\a\\appdata\\x.txt" ⟨true, some 5⟩ = true := by decide
example : should_skip "c:\\users\\a\\documents\\video.mp4" ⟨true, some 60000000000⟩ = false := by decide
example : should_skip "c:\\users\\a\\documents\\video.mp4" ⟨true, some (130 * 10 ^ 12)⟩ = true := by decide

/-! ### Destination Resolver (`find_destination`)

`is_drive_available` is `os.path.exists` with any exception mapped to
`False`; it is modeled by an availability oracle `avail : String → Bool`
(exceptions are folded into the oracle returning `false`). -/

/-- Embedding of `find_destination(username)`: probe `UNC_ROOT\username`, then
`MAPPED_ROOT\username`, then bare `MAPPED_ROOT`; the first available
candidate is joined with `BACKUP_FOLDER_NAME`.  The `if UNC_ROOT:` truthiness
test in the source is the nonemptiness test here. -/
def find_destination (avail : String → Bool) (username : String) : Option String :=
  if UNC_ROOT.length != 0 && avail (joinPath UNC_ROOT username) then
    some (joinPath (joinPath UNC_ROOT username) BACKUP_FOLDER_NAME)
  else if avail (joinPath MAPPED_ROOT username) then
    some (joinPath (joinPath MAPPED_ROOT username) BACKUP_FOLDER_NAME)
  else if avail MAPPED_ROOT then
    some (joinPath MAPPED_ROOT BACKUP_FOLDER_NAME)
  else none

/-- The candidate roots `find_destination` probes, in priority order
(written from the spec's words for the refinement comparison). -/
def resolveCandidates (username : String) : List String :=
  [joinPath UNC_ROOT username, joinPath MAPPED_ROOT username, MAPPED_ROOT]

/-- Spec-side resolver: first reachable candidate, joined with the backup
folder name (written from the spec's words for the refinement comparison). -/
def resolve_spec (avail : String → Bool) (username : String) : Option String :=
  ((resolveCandidates username).find? avail).map
    (fun c => joinPath c BACKUP_FOLDER_NAME)

/-! ### Availability Waiter (the poll loop in `main`)

Wall-clock time is a `Nat` (seconds).  Each failed attempt sleeps
`RETRY_INTERVAL_SECONDS`, advancing the clock; resolution itself is modeled
as instantaneous.  The resolver may depend on the current time
(`resolve : Nat → Option String`), modeling the share coming and going. -/

/-- The `while datetime.now() < deadline` poll loop from `main`: resolve,
return immediately on success, otherwise sleep one interval and retry.
Returns the resolver's answer (or `none` past the deadline) together with the
clock value at exit. -/
def waitLoop (resolve : Nat → Option String) (deadline now : Nat) :
    Option String × Nat :=
  if now < deadline then
    match resolve now with
    | some p => (some p, now)
    | none => waitLoop resolve deadline (now + RETRY_INTERVAL_SECONDS)
  else (none, now)
termination_by deadline - now
decreasing_by simp [RETRY_INTERVAL_SECONDS]; omega

/-- Unfolding: past the deadline the loop exits with `none` at the current
clock. -/
theorem waitLoop_exit (resolve : Nat → Option String) (deadline now : Nat)
    (h : ¬ now < deadline) : waitLoop resolve deadline now = (none, now) := by
  rw [waitLoop]
  simp [h]

/-- Unfolding: a successful resolution before the deadline is returned
immediately, with the clock unchanged (no sleep). -/
theorem waitLoop_hit (resolve : Nat → Option String) (deadline now : Nat) (p : String)
    (h : now < deadline) (hp : resolve now = some p) :
    waitLoop resolve deadline now = (some p, now) := by
  rw [waitLoop]
  simp [h, hp]

/-- Unfolding: a failed resolution before the deadline sleeps one interval
and retries. -/
theorem waitLoop_next (resolve : Nat → Option String) (deadline now : Nat)
    (h : now < deadline) (hp : resolve now = none) :
    waitLoop resolve deadline now = waitLoop resolve deadline (now + RETRY_INTERVAL_SECONDS) := by
  rw [waitLoop]
  simp [h, hp]

example : (waitLoop (fun _ => none) 900 0).2 = 900 := by
  simp [waitLoop_next, waitLoop_exit, RETRY_INTERVAL_SECONDS]

example : waitLoop (fun t => if t ≥ 120 then some "d" else none) 900 0 = (some "d", 120) := by
  simp [waitLoop_next, waitLoop_exit, waitLoop_hit, RETRY_INTERVAL_SECONDS]

/-! ### Fallback Incremental Copy Engine

Each regular file the walk visits is a `SrcEntry`: its full source path (what
`should_skip` sees), its mirrored destination key (the relative path under the
target directory), its size and its modification time.  The destination tree
is a map from mirrored keys to modification times (`none` = file absent).
`shutil.copy2` preserves the source modification time, so a copy stores the
source mtime at the key. -/

structure SrcEntry where
  path : String
  key : String
  size : Nat
  mtime : Nat
deriving DecidableEq, Repr

/-- The copy condition in the fallback loop:
`not os.path.exists(dst_f) or os.path.getmtime(src_f) > os.path.getmtime(dst_f)`. -/
def shouldCopy (dstMtime : Option Nat) (srcMtime : Nat) : Bool :=
  match dstMtime with
  | none => true
  | some d => srcMtime > d

/-- The fallback walk of `copy_folder_incremental`: for each file in walk
order, skip it if `should_skip` says so, else copy it (recording its key and
setting the destination mtime to the source mtime) exactly when `shouldCopy`
holds.  Returns the final destination map and the list of copied keys. -/
def copyRun : List SrcEntry → (String → Option Nat) → (String → Option Nat) × List String
  | [], dst => (dst, [])
  | e :: rest, dst =>
    if should_skip e.path ⟨true, some e.size⟩ then copyRun rest dst
    else if shouldCopy (dst e.key) e.mtime then
      let r := copyRun rest (fun p => if p == e.key then some e.mtime else dst p)
      (r.1, e.key :: r.2)
    else copyRun rest dst

/-! ### Orchestrator exit codes (`main` and the `__main__` guard) -/

/-- Embedding of `main()`: collect the configured user folders that exist (the oracle
`folderExists` answers `os.path.exists` per folder name); with none, return
`0` at once.  Otherwise run the waiter from `startTime` with the
`DRIVE_RETRY_MINUTES` deadline; `1` if it yields no destination, else `0`
(the copy phase does not affect the exit code). -/
def mainResult (folderExists : String → Bool) (avail : Nat → String → Bool)
    (username : String) (startTime : Nat) : Nat :=
  let srcFolders := USER_FOLDERS.filter folderExists
  if srcFolders.isEmpty then 0
  else
    match (waitLoop (fun t => find_destination (avail t) username)
        (startTime + DRIVE_RETRY_MINUTES * 60) startTime).1 with
    | some _ => 0
    | none => 1

/-- The `__main__` guard: `sys.exit(main())`, with any uncaught exception
mapped to `sys.exit(99)`.  A run that raises is an `Except.error`. -/
def topLevel (run : Except String Nat) : Nat :=
  match run with
  | Except.ok code => code
  | Except.error _ => 99

example : mainResult (fun _ => false) (fun _ _ => true) "alice" 0 = 0 := by decide
example : mainResult (fun _ => true) (fun _ _ => false) "alice" 0 = 1 := by
  have h : (fun t => find_destination ((fun (_ : Nat) (_ : String) => false) t) "alice")
      = fun _ => (none : Option String) := by
    funext t
    show find_destination (fun _ => false) "alice" = none
    decide
  simp [mainResult, h, waitLoop_next, waitLoop_exit, RETRY_INTERVAL_SECONDS, DRIVE_RETRY_MINUTES,
    USER_FOLDERS]

example : mainResult (fun _ => true) (fun _ _ => true) "alice" 0 = 0 := by
  have h : (fun t => find_destination ((fun (_ : Nat) (_ : String) => true) t) "alice")
      = fun _ => some (joinPath (joinPath UNC_ROOT "alice") BACKUP_FOLDER_NAME) := by
    funext t
    show find_destination (fun _ => true) "alice" = _
    decide
  simp only [mainResult, h, USER_FOLDERS, DRIVE_RETRY_MINUTES, List.filter, List.isEmpty]
  rw [waitLoop_hit _ _ _ _ (by decide) rfl]
  simp

/-! ### Robocopy (delegated-mode) exclusions -/

/-- The `/XD` directory-name exclusions passed to robocopy. -/
def ROBOCOPY_XD : List String := ["AppData", "Program Files", "Windows", "Temp", "Desktop"]

/-- The `/XF` file-pattern exclusions passed to robocopy. -/
def ROBOCOPY_XF : List String := ["*.exe", "*.msi", "*.bat", "*.cmd", "*.dll"]

/-- Robocopy's `/XD` verdict for a file, given the directory components of
its path: excluded when some component matches an `/XD` name
(case-insensitively). -/
def robocopyDirExcluded (dirs : List String) : Bool :=
  dirs.any (fun d => ROBOCOPY_XD.any (fun x => strLower d == strLower x))

/-- The Skip Policy's directory-substring rule in isolation (the first clause
of `should_skip`). -/
def skipDirRule (path : String) : Bool :=
  SKIP_SUBSTRINGS.any (fun s => strHasSub (strLower path) s)

/-- A full path from directory components plus a file name, joined the way
the script builds paths. -/
def pathOfComponents (dirs : List String) (fname : String) : String :=
  match dirs with
  | [] => fname
  | d :: rest => joinPath d (pathOfComponents rest fname)

example : pathOfComponents ["C:", "Users", "u"] "a.txt" = "C:\\Users\\u\\a.txt" := by decide

/-! ### Helper lemmas -/

/-- The final Outlook clause of `should_skip` yields `false` on every path. -/
theorem outlookClause_eq_false (path : String) : outlookClause path = false := by
  unfold outlookClause
  split
  · split <;> rfl
  · rfl

/-- A path ending in `.pst` does not end in `.lnk`. -/
theorem endsWith_pst_not_lnk (path : String) (h : strEndsWith path ".pst" = true) :
    strEndsWith path ".lnk" = false := by
  unfold strEndsWith at h ⊢
  have e1 : (".pst" : String).data.reverse = ['t', 's', 'p', '.'] := by decide
  have e2 : (".lnk" : String).data.reverse = ['k', 'n', 'l', '.'] := by decide
  rw [e1] at h
  rw [e2]
  cases hrev : path.data.reverse with
  | nil => rw [hrev] at h; simp [leadMatch] at h
  | cons a l =>
    rw [hrev] at h
    have ha : a = 't' := by
      simp [leadMatch] at h
      exact h.1
    simp [leadMatch, ha]

/-! ### Claim C10 — the Outlook clause is dead code -/

/-- C10: `should_skip` is extensionally equal to the same predicate with the
final Outlook-folder clause removed — that clause returns `false` on both of
its branches, exactly like the fall-through, so the verdict never depends on
the configured Outlook folder list; in particular an oversized `.pst` outside
every Outlook folder is also not skipped. -/
theorem c10_outlook_clause_dead :
    (∀ (path : String) (meta : FileMeta),
      should_skip path meta = should_skip_noOutlook path meta)
    ∧ should_skip "c:\\users\\alice\\documents\\big.pst"
        ⟨true, some (200 * 10 ^ 12)⟩ = false := by
  constructor
  · intro path meta
    unfold should_skip should_skip_noOutlook
    rw [outlookClause_eq_false]
  · decide

/-! ### Claim C3 — oversized `.pst` files under Outlook folders are kept -/

/-- C3: a `.pst` file under a configured Outlook folder whose path contains no
denylisted substring is not skipped, whatever its size. -/
theorem c3_pst_under_outlook_not_skipped (path : String) (size : Nat)
    (hclean : SKIP_SUBSTRINGS.any (fun s => strHasSub (strLower path) s) = false)
    (hpst : strEndsWith path PST_EXTENSION = true)
    (_hout : OUTLOOK_FOLDERS.any (fun f => strHasSub (strLower path) (strLower f)) = true) :
    should_skip path ⟨true, some size⟩ = false := by
  have hlnk : strEndsWith path ".lnk" = false := endsWith_pst_not_lnk path hpst
  unfold should_skip
  simp only [hclean, hlnk, hpst, PST_EXTENSION] at *
  simp [hclean, hlnk, hpst, outlookClause_eq_false]

/-- Witness for C3 at a concrete oversized archive. -/
theorem c3_witness :
    should_skip "C:\\Users\\alice\\Documents\\Outlook\\archive.pst"
      ⟨true, some (10 ^ 18)⟩ = false :=
  c3_pst_under_outlook_not_skipped "C:\\Users\\alice\\Documents\\Outlook\\archive.pst"
    (10 ^ 18) (by decide) (by decide) (by decide)

/-! ### Claim C1 — the size threshold -/

/-- C1: the claim says a clean-path regular file whose size exceeds
`MAX_FILE_SIZE_MB` megabytes (and not ending in `.pst`) is skipped.  The code
divides the byte size by `50000 * 50000` before comparing with
`MAX_FILE_SIZE_MB`, so a 60 GB file (over the 50 000 MB threshold) is NOT
skipped; files only start being skipped above
`MAX_FILE_SIZE_MB * 50000 * 50000` bytes (= 1.25 × 10¹⁴). -/
theorem c1_threshold_divergence :
    should_skip "c:\\users\\alice\\documents\\video.mp4"
        ⟨true, some 60000000000⟩ = false
      ∧ 60000000000 > MAX_FILE_SIZE_MB * 1000000
      ∧ should_skip "c:\\users\\alice\\documents\\video.mp4"
          ⟨true, some (MAX_FILE_SIZE_MB * (50000 * 50000) + 1)⟩ = true := by
  refine ⟨by decide, by decide, by decide⟩

/-! ### Claim C4 — resolver priority order -/

/-- C4: `find_destination` equals the spec-side resolver (first reachable
candidate in the fixed order network-user, mapped-user, bare mapped, joined
with the backup folder name; `none` when no candidate is reachable), and
when both the network-root and mapped-root user candidates are reachable it
returns the network-root-derived path. -/
theorem c4_resolver_priority (avail : String → Bool) (username : String) :
    find_destination avail username = resolve_spec avail username
      ∧ (avail (joinPath UNC_ROOT username) = true →
          avail (joinPath MAPPED_ROOT username) = true →
          find_destination avail username
            = some (joinPath (joinPath UNC_ROOT username) BACKUP_FOLDER_NAME)) := by
  have hn : (UNC_ROOT.length != 0) = true := by decide
  constructor
  · unfold find_destination resolve_spec resolveCandidates
    cases h1 : avail (joinPath UNC_ROOT username) <;>
      cases h2 : avail (joinPath MAPPED_ROOT username) <;>
        cases h3 : avail MAPPED_ROOT <;>
          simp [h1, h2, h3, hn, List.find?]
  · intro h1 _
    unfold find_destination
    simp [h1, hn]

/-- Witness for C4: both user candidates reachable; the network path wins. -/
theorem c4_witness :
    find_destination (fun _ => true) "alice" = resolve_spec (fun _ => true) "alice"
      ∧ find_destination (fun _ => true) "alice"
          = some (joinPath (joinPath UNC_ROOT "alice") BACKUP_FOLDER_NAME) :=
  ⟨(c4_resolver_priority (fun _ => true) "alice").1,
   (c4_resolver_priority (fun _ => true) "alice").2 rfl rfl⟩

/-! ### Claim C8 — existence of the returned destination at selection time -/

/-- An availability oracle under which only `UNC_ROOT\alice` exists (the
`BACKUP` subdirectory does not). -/
def availOnlyUncUser : String → Bool :=
  fun p => p == joinPath UNC_ROOT "alice"

/-- C8 counterexample: `find_destination` existence-checks only the probed
candidate root, not the returned path.  With only `UNC_ROOT\alice` existing
it returns `UNC_ROOT\alice\BACKUP`, for which the existence check was false
at selection time (which is why `main` immediately calls `os.makedirs` on
it). -/
theorem c8_counterexample :
    (find_destination availOnlyUncUser "alice").isSome = true
      ∧ availOnlyUncUser ((find_destination availOnlyUncUser "alice").getD "") = false := by
  refine ⟨by decide, by decide⟩

/-- C8 amended: whenever `find_destination` returns a path, that path is one
of the probed candidate roots joined with `BACKUP_FOLDER_NAME`, and the
existence check held for the candidate root — not necessarily for the
returned path itself. -/
theorem c8_candidate_available_at_selection (avail : String → Bool) (username p : String)
    (h : find_destination avail username = some p) :
    ∃ c, c ∈ resolveCandidates username ∧ avail c = true
      ∧ p = joinPath c BACKUP_FOLDER_NAME := by
  unfold find_destination at h
  split at h
  · next hc =>
    refine ⟨joinPath UNC_ROOT username, by simp [resolveCandidates],
      (Bool.and_eq_true _ _ |>.mp hc).2, ?_⟩
    simpa using h.symm
  · split at h
    · next hc =>
      refine ⟨joinPath MAPPED_ROOT username, by simp [resolveCandidates], hc, ?_⟩
      simpa using h.symm
    · split at h
      · next hc =>
        refine ⟨MAPPED_ROOT, by simp [resolveCandidates], hc, ?_⟩
        simpa using h.symm
      · simp at h

/-- Witness for the amended C8 at a concrete oracle. -/
theorem c8_witness :
    ∃ c, c ∈ resolveCandidates "alice" ∧ availOnlyUncUser c = true
      ∧ (joinPath (joinPath UNC_ROOT "alice") BACKUP_FOLDER_NAME)
          = joinPath c BACKUP_FOLDER_NAME :=
  c8_candidate_available_at_selection availOnlyUncUser "alice"
    (joinPath (joinPath UNC_ROOT "alice") BACKUP_FOLDER_NAME) (by decide)

/-! ### Copy-engine lemmas -/

/-- A key that belongs to no source entry is neither copied nor overwritten
by a run. -/
theorem copyRun_untouched (files : List SrcEntry) (dst : String → Option Nat) (k : String)
    (hk : k ∉ files.map SrcEntry.key) :
    k ∉ (copyRun files dst).2 ∧ (copyRun files dst).1 k = dst k := by
  induction files generalizing dst with
  | nil => simp [copyRun]
  | cons e rest ih =>
    have hke : k ≠ e.key := by
      intro hcontra
      exact hk (by simp [hcontra])
    have hkr : k ∉ rest.map SrcEntry.key := by
      intro hcontra
      exact hk (by simp [hcontra])
    unfold copyRun
    split
    · exact ih dst hkr
    · split
      · have ihr := ih (fun p => if p == e.key then some e.mtime else dst p) hkr
        refine ⟨?_, ?_⟩
        · intro hmem
          rcases List.mem_cons.mp hmem with h | h
          · exact hke h
          · exact ihr.1 h
        · rw [ihr.2]
          simp [hke]
      · exact ih dst hkr

/-- A run never lowers a destination mtime: any key already present stays
present with an mtime at least as large. -/
theorem copyRun_mono (files : List SrcEntry) (dst : String → Option Nat) (k : String)
    (v : Nat) (hv : dst k = some v) :
    ∃ w, (copyRun files dst).1 k = some w ∧ v ≤ w := by
  induction files generalizing dst v with
  | nil => exact ⟨v, hv, le_rfl⟩
  | cons e rest ih =>
    unfold copyRun
    split
    · exact ih dst v hv
    · split
      · next hcopy =>
        by_cases hke : k = e.key
        · subst hke
          rw [hv] at hcopy
          have hlt : v < e.mtime := by simpa [shouldCopy] using hcopy
          obtain ⟨w, hw, hle⟩ := ih (fun p => if p == e.key then some e.mtime else dst p)
            e.mtime (by simp)
          exact ⟨w, hw, le_of_lt (lt_of_lt_of_le hlt hle)⟩
        · obtain ⟨w, hw, hle⟩ := ih (fun p => if p == e.key then some e.mtime else dst p)
            v (by simp [hke, hv])
          exact ⟨w, hw, hle⟩
      · exact ih dst v hv

/-- After a run, every non-skipped source entry is present at the destination
with an mtime at least the source's. -/
theorem copyRun_covers (files : List SrcEntry) (dst : String → Option Nat) (e : SrcEntry)
    (hmem : e ∈ files) (hskip : should_skip e.path ⟨true, some e.size⟩ = false) :
    ∃ w, (copyRun files dst).1 e.key = some w ∧ e.mtime ≤ w := by
  induction files generalizing dst with
  | nil => cases hmem
  | cons f rest ih =>
    rcases List.mem_cons.mp hmem with heq | hrest
    · subst heq
      unfold copyRun
      rw [hskip]
      simp only [Bool.false_eq_true, if_false]
      split
      · exact copyRun_mono rest _ e.key e.mtime (by simp)
      · next hnocopy =>
        match hd : dst e.key with
        | none => rw [hd] at hnocopy; simp [shouldCopy] at hnocopy
        | some d =>
          rw [hd] at hnocopy
          have hle : e.mtime ≤ d := by
            simpa [shouldCopy] using hnocopy
          obtain ⟨w, hw, hwle⟩ := copyRun_mono rest dst e.key d hd
          exact ⟨w, hw, le_trans hle hwle⟩
    · unfold copyRun
      split
      · exact ih dst hrest
      · split
        · exact ih (fun p => if p == f.key then some f.mtime else dst p) hrest
        · exact ih dst hrest

/-- A run in which every entry is either skipped or not newer than the
destination does nothing. -/
theorem copyRun_stall (files : List SrcEntry) (dst : String → Option Nat)
    (h : ∀ e ∈ files, should_skip e.path ⟨true, some e.size⟩ = true
        ∨ shouldCopy (dst e.key) e.mtime = false) :
    copyRun files dst = (dst, []) := by
  induction files with
  | nil => rfl
  | cons e rest ih =>
    unfold copyRun
    split
    · exact ih (fun f hf => h f (by simp [hf]))
    · next hskip =>
      rcases h e (by simp) with hsk | hnc
      · exact absurd hsk (by simpa using hskip)
      · rw [hnc]
        simpa using ih (fun f hf => h f (by simp [hf]))

/-! ### Claim C5 — newer-wins copy decision -/

/-- C5: in fallback mode, a non-skipped source file is copied exactly when the
destination file is absent or the source modification time is strictly newer;
and whenever the source is not strictly newer (present and older-or-equal),
the destination entry is left untouched. -/
theorem c5_newer_wins (files : List SrcEntry) (dst : String → Option Nat) (e : SrcEntry)
    (hnodup : (files.map SrcEntry.key).Nodup) (hmem : e ∈ files) :
    (e.key ∈ (copyRun files dst).2
        ↔ should_skip e.path ⟨true, some e.size⟩ = false
            ∧ shouldCopy (dst e.key) e.mtime = true)
      ∧ (shouldCopy (dst e.key) e.mtime = false →
          (copyRun files dst).1 e.key = dst e.key) := by
  induction files generalizing dst with
  | nil => cases hmem
  | cons f rest ih =>
    rw [List.map_cons, List.nodup_cons] at hnodup
    obtain ⟨hfk, hnrest⟩ := hnodup
    rcases List.mem_cons.mp hmem with heq | hrest
    · subst heq
      unfold copyRun
      split
      · next hskip =>
        have hout := copyRun_untouched rest dst e.key hfk
        constructor
        · simp [hout.1, hskip]
        · intro _
          exact hout.2
      · next hskip =>
        have hsk : should_skip e.path ⟨true, some e.size⟩ = false := by
          simpa using hskip
        split
        · next hcopy =>
          constructor
          · simp [hsk, hcopy]
          · intro hnc
            simp [hcopy] at hnc
        · next hcopy =>
          have hout := copyRun_untouched rest dst e.key hfk
          constructor
          · constructor
            · intro hc
              exact absurd hc hout.1
            · rintro ⟨-, hc⟩
              exact absurd hc hcopy
          · intro _
            exact hout.2
    · have hek : e.key ∈ rest.map SrcEntry.key := List.mem_map.mpr ⟨e, hrest, rfl⟩
      have hne : e.key ≠ f.key := fun hcontra => hfk (hcontra ▸ hek)
      unfold copyRun
      split
      · exact ih dst hnrest hrest
      · split
        · have hbeq : (e.key == f.key) = false := by simp [hne]
          have ihr := ih (fun p => if p == f.key then some f.mtime else dst p) hnrest hrest
          simp only [hbeq, Bool.false_eq_true, if_false] at ihr
          constructor
          · simp only [List.mem_cons]
            constructor
            · intro hc
              rcases hc with hc | hc
              · exact absurd hc hne
              · exact ihr.1.mp hc
            · intro hc
              exact Or.inr (ihr.1.mpr hc)
          · exact ihr.2
        · exact ih dst hnrest hrest

/-- Witness data for C5: one clean source file against an empty destination. -/
def c5entry : SrcEntry :=
  ⟨"c:\\users\\alice\\documents\\report.txt", "Documents\\report.txt", 5, 10⟩

/-- Witness for C5: the single clean file is copied into an empty
destination. -/
theorem c5_witness :
    (c5entry.key ∈ (copyRun [c5entry] (fun _ => none)).2
        ↔ should_skip c5entry.path ⟨true, some c5entry.size⟩ = false
            ∧ shouldCopy ((fun _ => (none : Option Nat)) c5entry.key) c5entry.mtime = true)
      ∧ (shouldCopy ((fun _ => (none : Option Nat)) c5entry.key) c5entry.mtime = false →
          (copyRun [c5entry] (fun _ => none)).1 c5entry.key = none) :=
  c5_newer_wins [c5entry] (fun _ => none) c5entry (by simp) (by simp)

/-! ### Claim C6 — idempotence of the fallback engine -/

/-- C6: running the fallback engine a second time over an unchanged source
performs no copies and leaves every destination mtime unchanged (the first
run preserved source mtimes, so no source file is strictly newer on the
second run). -/
theorem c6_idempotent (files : List SrcEntry) (dst : String → Option Nat) :
    copyRun files (copyRun files dst).1 = ((copyRun files dst).1, []) := by
  apply copyRun_stall
  intro e hmem
  by_cases hskip : should_skip e.path ⟨true, some e.size⟩ = true
  · exact Or.inl hskip
  · obtain ⟨w, hw, hle⟩ := copyRun_covers files dst e hmem (by simpa using hskip)
    refine Or.inr ?_
    rw [hw]
    simp [shouldCopy]
    omega

/-! ### Claim C7 — waiter termination and immediacy -/

/-- With a resolver that always fails, the loop exits with `none` at the
first poll instant at or past the deadline: within one poll interval past
the deadline. -/
theorem waitLoop_always_none (resolve : Nat → Option String) (deadline : Nat)
    (hnone : ∀ t, resolve t = none) :
    ∀ fuel now, deadline - now ≤ fuel → now ≤ deadline →
      (waitLoop resolve deadline now).1 = none
        ∧ deadline ≤ (waitLoop resolve deadline now).2
        ∧ (waitLoop resolve deadline now).2 < deadline + RETRY_INTERVAL_SECONDS := by
  have hR : RETRY_INTERVAL_SECONDS = 60 := rfl
  intro fuel
  induction fuel with
  | zero =>
    intro now hfuel hle
    have hnd : now = deadline := by omega
    subst hnd
    rw [waitLoop_exit _ _ _ (by omega)]
    refine ⟨rfl, le_rfl, by omega⟩
  | succ f ih =>
    intro now hfuel hle
    by_cases h : now < deadline
    · rw [waitLoop_next _ _ _ h (hnone now)]
      by_cases h2 : now + RETRY_INTERVAL_SECONDS ≤ deadline
      · exact ih (now + RETRY_INTERVAL_SECONDS) (by omega) h2
      · rw [waitLoop_exit _ _ _ (by omega)]
        exact ⟨rfl, by omega, by omega⟩
    · rw [waitLoop_exit _ _ _ h]
      exact ⟨rfl, by omega, by omega⟩

/-- C7: (a) with a resolver that never succeeds the waiter terminates,
returning `none` at a clock value at or past the deadline but within one
poll interval of it; (b) as soon as the resolver succeeds before the
deadline, the waiter returns that path at the current clock — no further
sleep. -/
theorem c7_waiter_terminates (resolve : Nat → Option String) (deadline now : Nat) :
    ((∀ t, resolve t = none) → now ≤ deadline →
        (waitLoop resolve deadline now).1 = none
          ∧ deadline ≤ (waitLoop resolve deadline now).2
          ∧ (waitLoop resolve deadline now).2 < deadline + RETRY_INTERVAL_SECONDS)
      ∧ (∀ p, now < deadline → resolve now = some p →
          waitLoop resolve deadline now = (some p, now)) := by
  constructor
  · intro hnone hle
    exact waitLoop_always_none resolve deadline hnone (deadline - now) now le_rfl hle
  · intro p h hp
    exact waitLoop_hit resolve deadline now p h hp

/-- Witness for C7: the 15-minute deadline with a dead resolver, and an
immediately successful resolver. -/
theorem c7_witness :
    ((waitLoop (fun _ => none) 900 0).1 = none
        ∧ 900 ≤ (waitLoop (fun _ => none) 900 0).2
        ∧ (waitLoop (fun _ => none) 900 0).2 < 900 + RETRY_INTERVAL_SECONDS)
      ∧ waitLoop (fun _ => some "Z:\\\\alice\\BACKUP") 900 0
          = (some "Z:\\\\alice\\BACKUP", 0) :=
  ⟨(c7_waiter_terminates (fun _ => none) 900 0).1 (fun _ => rfl) (by omega),
   (c7_waiter_terminates (fun _ => some "Z:\\\\alice\\BACKUP") 900 0).2
     "Z:\\\\alice\\BACKUP" (by omega) rfl⟩

/-! ### Claim C9 — process exit codes -/

/-- C9: exit code 0 when no configured source folder exists (no wait is
performed — the result does not consult the resolver) or when the waiter
finds a destination; 1 when the waiter times out; and the top-level guard
maps any uncaught fault to 99 while passing `main`'s code through
unchanged. -/
theorem c9_exit_codes (folderExists : String → Bool) (avail : Nat → String → Bool)
    (username : String) (startTime : Nat) :
    ((USER_FOLDERS.filter folderExists).isEmpty = true →
        mainResult folderExists avail username startTime = 0)
      ∧ ((waitLoop (fun t => find_destination (avail t) username)
            (startTime + DRIVE_RETRY_MINUTES * 60) startTime).1 = none →
          (USER_FOLDERS.filter folderExists).isEmpty = false →
          mainResult folderExists avail username startTime = 1)
      ∧ (∀ p, (waitLoop (fun t => find_destination (avail t) username)
            (startTime + DRIVE_RETRY_MINUTES * 60) startTime).1 = some p →
          mainResult folderExists avail username startTime = 0)
      ∧ (∀ e : String, topLevel (Except.error e) = 99)
      ∧ (∀ code : Nat, topLevel (Except.ok code) = code) := by
  refine ⟨?_, ?_, ?_, fun _ => rfl, fun _ => rfl⟩
  · intro hempty
    unfold mainResult
    simp [hempty]
  · intro hwait hempty
    unfold mainResult
    simp [hempty, hwait]
  · intro p hp
    unfold mainResult
    by_cases hempty : (USER_FOLDERS.filter folderExists).isEmpty
    · simp [hempty]
    · simp [hempty, hp]

/-- Witness for C9 at concrete oracles: no folders → 0; folders but the
share never appears → 1; share immediately reachable → 0; a fault → 99. -/
theorem c9_witness :
    mainResult (fun _ => false) (fun _ _ => true) "alice" 0 = 0
      ∧ mainResult (fun _ => true) (fun _ _ => false) "alice" 0 = 1
      ∧ mainResult (fun _ => true) (fun _ _ => true) "alice" 0 = 0
      ∧ topLevel (Except.error "boom") = 99 := by
  refine ⟨(c9_exit_codes (fun _ => false) (fun _ _ => true) "alice" 0).1 rfl, ?_, ?_,
    (c9_exit_codes (fun _ => false) (fun _ _ => true) "alice" 0).2.2.2.1 "boom"⟩
  · refine (c9_exit_codes (fun _ => true) (fun _ _ => false) "alice" 0).2.1 ?_ rfl
    have h : (fun t => find_destination ((fun (_ : Nat) (_ : String) => false) t) "alice")
        = fun _ => (none : Option String) := by
      funext t
      show find_destination (fun _ => false) "alice" = none
      decide
    rw [h]
    simp [waitLoop_next, waitLoop_exit, RETRY_INTERVAL_SECONDS, DRIVE_RETRY_MINUTES]
  · refine (c9_exit_codes (fun _ => true) (fun _ _ => true) "alice" 0).2.2.1
      (joinPath (joinPath UNC_ROOT "alice") BACKUP_FOLDER_NAME) ?_
    have h : (fun t => find_destination ((fun (_ : Nat) (_ : String) => true) t) "alice")
        = fun _ => some (joinPath (joinPath UNC_ROOT "alice") BACKUP_FOLDER_NAME) := by
      funext t
      show find_destination (fun _ => true) "alice" = _
      decide
    rw [h]
    rw [waitLoop_hit _ _ _ _ (by decide) rfl]

/-! ### Claim C2 — delegated-mode (robocopy) exclusions vs the Skip Policy -/

theorem hasSub_nil_needle (l : List Char) : hasSub l [] = true := by
  cases l <;> simp [hasSub, leadMatch]

theorem leadMatch_append (a b n : List Char) (h : leadMatch a n = true) :
    leadMatch (a ++ b) n = true := by
  induction n generalizing a with
  | nil => simp [leadMatch]
  | cons c m ih =>
    cases a with
    | nil => simp [leadMatch] at h
    | cons x xs =>
      simp only [leadMatch, Bool.and_eq_true] at h
      simp only [List.cons_append, leadMatch, Bool.and_eq_true]
      exact ⟨h.1, ih xs h.2⟩

theorem hasSub_append_left (a b n : List Char) (h : hasSub a n = true) :
    hasSub (a ++ b) n = true := by
  induction a with
  | nil =>
    simp [hasSub] at h
    simp [h, hasSub_nil_needle]
  | cons x xs ih =>
    simp only [hasSub, Bool.or_eq_true] at h
    simp only [List.cons_append, hasSub, Bool.or_eq_true]
    rcases h with h | h
    · exact Or.inl (leadMatch_append _ _ _ h)
    · exact Or.inr (ih h)

theorem hasSub_append_right (a b n : List Char) (h : hasSub b n = true) :
    hasSub (a ++ b) n = true := by
  induction a with
  | nil => simpa using h
  | cons x xs ih =>
    simp only [List.cons_append, hasSub, Bool.or_eq_true]
    exact Or.inr ih

theorem strLower_append (p q : String) : strLower (p ++ q) = strLower p ++ strLower q := by
  unfold strLower
  apply String.ext
  simp [String.data_append]

theorem strHasSub_append_left (p q n : String) (h : strHasSub p n = true) :
    strHasSub (p ++ q) n = true := by
  unfold strHasSub at *
  rw [String.data_append]
  exact hasSub_append_left _ _ _ h

theorem strHasSub_append_right (p q n : String) (h : strHasSub q n = true) :
    strHasSub (p ++ q) n = true := by
  unfold strHasSub at *
  rw [String.data_append]
  exact hasSub_append_right _ _ _ h

/-- A substring of a component (lowercased) is a substring of the lowercased
joined path. -/
theorem component_sub (dirs : List String) (fname d s : String) (hd : d ∈ dirs)
    (h : strHasSub (strLower d) s = true) :
    strHasSub (strLower (pathOfComponents dirs fname)) s = true := by
  induction dirs with
  | nil => cases hd
  | cons x rest ih =>
    rcases List.mem_cons.mp hd with heq | hrest
    · subst heq
      show strHasSub (strLower (joinPath d (pathOfComponents rest fname))) s = true
      unfold joinPath
      split
      · rw [strLower_append]
        exact strHasSub_append_left _ _ _ h
      · rw [strLower_append, strLower_append]
        exact strHasSub_append_left _ _ _ (strHasSub_append_left _ _ _ h)
    · show strHasSub (strLower (joinPath x (pathOfComponents rest fname))) s = true
      unfold joinPath
      split
      · rw [strLower_append]
        exact strHasSub_append_right _ _ _ (ih hrest)
      · rw [strLower_append]
        exact strHasSub_append_right _ _ _ (ih hrest)

/-- Directory components of the C2 counterexample file. -/
def c2dirs : List String := ["C:", "Users", "u", "Documents", "Microsoft"]

/-- C2 counterexample: a file inside a `Microsoft` directory.  The Skip
Policy's substring denylist (and hence `should_skip`) excludes it, but
robocopy's `/XD` list (AppData, Program Files, Windows, Temp, Desktop — no
Microsoft) does not, so the delegated mode's exclusion verdict disagrees
with `should_skip`'s directory-substring rules on this file. -/
theorem c2_counterexample :
    skipDirRule (pathOfComponents c2dirs "notes.txt") = true
      ∧ should_skip (pathOfComponents c2dirs "notes.txt") ⟨true, some 5⟩ = true
      ∧ robocopyDirExcluded c2dirs = false := by
  refine ⟨by decide, by decide, by decide⟩

/-- C2 amended: the delegated mode's directory exclusions are not equivalent
to the Skip Policy's substring denylist; what holds is one-directional
agreement modulo the extra `Desktop` entry: every file robocopy's `/XD` list
excludes is also excluded by the Skip Policy's substring rule (and hence by
`should_skip`) unless the matching component is `Desktop`, which only the
delegated mode excludes. -/
theorem c2_delegated_exclusion_relation :
    (∀ (dirs : List String) (fname : String), robocopyDirExcluded dirs = true →
        skipDirRule (pathOfComponents dirs fname) = true
          ∨ dirs.any (fun d => strLower d == "desktop") = true)
      ∧ (∀ (path : String) (meta : FileMeta), skipDirRule path = true →
          should_skip path meta = true) := by
  constructor
  · intro dirs fname h
    unfold robocopyDirExcluded at h
    rw [List.any_eq_true] at h
    obtain ⟨d, hd, hmatch⟩ := h
    rw [List.any_eq_true] at hmatch
    obtain ⟨x, hx, hxeq⟩ := hmatch
    have hdeq : strLower d = strLower x := eq_of_beq hxeq
    fin_cases hx
    · refine Or.inl (List.any_eq_true.mpr ⟨"appdata", by decide, ?_⟩)
      exact component_sub dirs fname d "appdata" hd (by rw [hdeq]; decide)
    · refine Or.inl (List.any_eq_true.mpr ⟨"program files", by decide, ?_⟩)
      exact component_sub dirs fname d "program files" hd (by rw [hdeq]; decide)
    · refine Or.inl (List.any_eq_true.mpr ⟨"windows", by decide, ?_⟩)
      exact component_sub dirs fname d "windows" hd (by rw [hdeq]; decide)
    · refine Or.inl (List.any_eq_true.mpr ⟨"temp", by decide, ?_⟩)
      exact component_sub dirs fname d "temp" hd (by rw [hdeq]; decide)
    · refine Or.inr (List.any_eq_true.mpr ⟨d, hd, ?_⟩)
      rw [hdeq]
      decide
  · intro path meta h
    unfold skipDirRule at h
    unfold should_skip
    simp [h]

/-- Witness for the amended C2: a `Windows` directory is excluded by both
rules; a path containing `appdata` is skipped by `should_skip`. -/
theorem c2_witness :
    (skipDirRule (pathOfComponents ["C:", "Windows"] "a.txt") = true
        ∨ (["C:", "Windows"].any (fun d => strLower d == "desktop")) = true)
      ∧ should_skip "c:\\users\\u\\appdata\\a.txt" ⟨true, some 5⟩ = true :=
  ⟨c2_delegated_exclusion_relation.1 ["C:", "Windows"] "a.txt" (by decide),
   c2_delegated_exclusion_relation.2 "c:\\users\\u\\appdata\\a.txt" ⟨true, some 5⟩ (by decide)⟩
